import Mathlib

/-!
Shallow embedding of the wave-synchronized strategy executor of NZM_CMD
(src/src/tower_defense.rs).  Rust `f32` values are modelled as exact
rationals (all claim-relevant arithmetic is exact at the stated inputs),
`i32` as `Int`, `usize`/`u64` as `Nat`, timestamps (`Instant`) as `Nat`
seconds, and `HashSet` ledgers as lists used up to membership.
-/

namespace NZM

/-- The wave-tracking fields of `TowerDefenseApp`: `last_confirmed_wave : i32`
and `last_wave_change_time : Instant` (modelled as seconds). -/
structure WaveState where
  last_confirmed_wave : Int
  last_wave_change_time : Nat
deriving Repr, DecidableEq

/-- Model of `TowerDefenseApp::validate_wave_transition` (tower_defense.rs:224-236).
`elapsed` is `now.duration_since(last_wave_change_time).as_secs()`
(saturating, as `Nat` subtraction).  The source hardcodes the cool-down at
60 s; the spec abstracts it as `min_interval`, so it is a parameter here
(the deployed value is 60).  Returns the accept flag together with the
updated state. -/
def validate_wave_transition (minInterval : Nat) (s : WaveState) (now : Nat)
    (detected_wave : Int) : Bool × WaveState :=
  let elapsed := now - s.last_wave_change_time
  let is_next_wave := detected_wave == s.last_confirmed_wave + 1
  let is_long_enough := decide (elapsed ≥ minInterval) || (s.last_confirmed_wave == 0)
  if is_next_wave && is_long_enough then
    (true, { last_confirmed_wave := detected_wave, last_wave_change_time := now })
  else
    (false, s)

/-- Feed a list of `(detected wave, timestamp)` samples through
`validate_wave_transition`, collecting the confirmed transitions, exactly as
the monitoring loop does on each poll. -/
def run_detections (minInterval : Nat) : WaveState → List (Int × Nat) → List Int
  | _, [] => []
  | s, (d, t) :: rest =>
    let r := validate_wave_transition minInterval s t d
    if r.1 then d :: run_detections minInterval r.2 rest
    else run_detections minInterval r.2 rest


/-- Config `TDConfig` (tower_defense.rs:16-22): safe interaction rectangle
`[x1, y1, x2, y2]` split into named fields, plus the screen dimensions.
The two HUD OCR rectangles are omitted: they only select which screen
region is sampled, which is outside the modelled functions. -/
structure TDConfig where
  safe_zone_x1 : Int
  safe_zone_y1 : Int
  safe_zone_x2 : Int
  safe_zone_y2 : Int
  screen_width : ℚ
  screen_height : ℚ
deriving Repr, DecidableEq

/-- Default `TDConfig::default()` (tower_defense.rs:24-34), safe zone and screen. -/
def default_config : TDConfig :=
  { safe_zone_x1 := 200, safe_zone_y1 := 200, safe_zone_x2 := 1720,
    safe_zone_y2 := 880, screen_width := 1920, screen_height := 1080 }

/-- Terrain meta `MapMeta` (tower_defense.rs:44-49). -/
structure MapMeta where
  grid_pixel_size : ℚ
  offset_x : ℚ
  offset_y : ℚ
  bottom : ℚ
deriving Repr, DecidableEq

/-- Placement record `BuildingExport` (tower_defense.rs:52-63). -/
structure BuildingExport where
  uid : Nat
  name : String
  grid_x : Nat
  grid_y : Nat
  width : Nat
  height : Nat
  wave_num : Int
  is_late : Bool
deriving Repr, DecidableEq

/-- Upgrade record `UpgradeEvent` (tower_defense.rs:66-70). -/
structure UpgradeEvent where
  building_name : String
  wave_num : Int
  is_late : Bool
deriving Repr, DecidableEq

/-- Demolish record `DemolishEvent` (tower_defense.rs:73-82). -/
structure DemolishEvent where
  uid : Nat
  name : String
  grid_x : Nat
  grid_y : Nat
  width : Nat
  height : Nat
  wave_num : Int
  is_late : Bool
deriving Repr, DecidableEq

/-- The fields of `TowerDefenseApp` that the modelled execution methods only
read: configuration, loaded terrain meta, the three strategy lists, the
active loadout and the camera pan speed. -/
structure TDEnv where
  config : TDConfig
  map_meta : Option MapMeta
  strategy_buildings : List BuildingExport
  strategy_upgrades : List UpgradeEvent
  strategy_demolishes : List DemolishEvent
  active_loadout : List String
  move_speed : ℚ
deriving Repr, DecidableEq

/-- The fields of `TowerDefenseApp` that the modelled execution methods
mutate: the three idempotency ledgers (`HashSet`s, modelled as lists used up
to membership) and the two camera offsets. -/
structure ExecSt where
  placed_uids : List Nat
  completed_upgrade_keys : List String
  completed_demolish_uids : List Nat
  camera_offset_x : ℚ
  camera_offset_y : ℚ
deriving Repr, DecidableEq

/-- One primitive device action issued through the `HumanDriver` handle:
`move_to_humanly`, `click_humanly`, `double_click_humanly`, `key_click`,
`key_hold`.  Coordinates carry the `as u16` cast already applied. -/
inductive Action where
  | moveTo (x y : Int) (duration : ℚ)
  | click (left right : Bool) (extra : Nat)
  | doubleClick (left right : Bool)
  | keyClick (c : Char)
  | keyHold (c : Char) (ms : Nat)
deriving Repr, DecidableEq

/-- Rust `f32::min` on exact rationals. -/
def minQ (a b : ℚ) : ℚ := if a ≤ b then a else b

/-- Rust `f32::max` on exact rationals (`(bottom − height).max(0.0)`). -/
def maxQ (a b : ℚ) : ℚ := if a ≤ b then b else a

/-- Rust `f32::clamp(lo, hi)` for `lo ≤ hi` (the source never calls it with
`lo > hi` on the paths modelled; Rust would panic there, this total version
returns `max lo (min x hi)`). -/
def clampQ (x lo hi : ℚ) : ℚ := maxQ lo (minQ x hi)

/-- Rust `as u16` on an `f32`: truncate toward zero and saturate to
`[0, 65535]` (for nonnegative rationals truncation is the floor). -/
def f32_as_u16 (x : ℚ) : Int := min 65535 (max 0 ⌊x⌋)

/-- Rust `as u64` on a nonnegative `f32` (key-hold durations): truncate. -/
def f32_as_u64 (x : ℚ) : Nat := ⌊x⌋.toNat

/-- One pass over the `loop` body of `ensure_target_in_safe_zone`
(tower_defense.rs:341-362) up to the point where `camera_offset_y` is
updated: `none` means the loop `break`s without acting (target already in
the safe band, or the remaining delta is under the 5-pixel epsilon);
`some (target, act)` is the new offset together with the camera key-hold
issued for it. -/
def ensure_step (cfg : TDConfig) (move_speed ty : ℚ) (is_bottom_zone : Bool)
    (max_offset_y offy : ℚ) : Option (ℚ × Action) :=
  let rel_y := ty - offy
  if (cfg.safe_zone_y1 : ℚ) ≤ rel_y ∧ rel_y ≤ (cfg.safe_zone_y2 : ℚ) then none
  else
    let target_offset :=
      bif is_bottom_zone then max_offset_y
      else
        let safe_center_y := ((cfg.safe_zone_y1 + cfg.safe_zone_y2 : Int) : ℚ) / 2
        clampQ (offy + (rel_y - safe_center_y)) 0 max_offset_y
    let dist := target_offset - offy
    if |dist| < 5 then none
    else
      some (target_offset, Action.keyHold (if dist > 0 then 's' else 'w')
        (f32_as_u64 (|dist| / move_speed * 1000)))

/-- The `loop` of `ensure_target_in_safe_zone` with explicit fuel: after an
update the loop exits at once in the bottom zone, otherwise it re-runs.
`ensure_loop_stable` below shows fuel 2 already reaches the loop's exit, so
the unbounded source loop equals the fuel-2 run.  Returns the final
`camera_offset_y` and the device actions issued. -/
def ensure_loop (cfg : TDConfig) (move_speed ty : ℚ) (is_bottom_zone : Bool)
    (max_offset_y : ℚ) : Nat → ℚ → ℚ × List Action
  | 0, offy => (offy, [])
  | n + 1, offy =>
    match ensure_step cfg move_speed ty is_bottom_zone max_offset_y offy with
    | none => (offy, [])
    | some (target_offset, act) =>
      bif is_bottom_zone then (target_offset, [act])
      else
        let r := ensure_loop cfg move_speed ty is_bottom_zone max_offset_y n target_offset
        (r.1, act :: r.2)

/-- Model of `TowerDefenseApp::ensure_target_in_safe_zone` (tower_defense.rs:335-363).
The horizontal target `tx` is received but unused (`_tx` in the source).
Without loaded terrain the method returns immediately. -/
def ensure_target_in_safe_zone (env : TDEnv) (st : ExecSt) (_tx ty : ℚ) :
    ExecSt × List Action :=
  match env.map_meta with
  | none => (st, [])
  | some meta =>
    let max_offset_y := maxQ (meta.bottom - env.config.screen_height) 0
    let is_bottom_zone :=
      decide (ty > meta.bottom - (env.config.screen_height - (env.config.safe_zone_y1 : ℚ)))
    let r := ensure_loop env.config env.move_speed ty is_bottom_zone max_offset_y 2
      st.camera_offset_y
    ({ st with camera_offset_y := r.1 }, r.2)

/-- Model of `TowerDefenseApp::get_absolute_map_pixel` (tower_defense.rs:424-429):
affine grid-to-pixel transform anchored at the footprint's centroid. -/
def get_absolute_map_pixel (env : TDEnv) (gx gy w h : Nat) : Option (ℚ × ℚ) :=
  match env.map_meta with
  | none => none
  | some meta =>
    some (meta.offset_x + ((gx : ℚ) + (w : ℚ) / 2) * meta.grid_pixel_size,
      meta.offset_y + ((gy : ℚ) + (h : ℚ) / 2) * meta.grid_pixel_size)

/-- Model of `TowerDefenseApp::get_trap_key` (tower_defense.rs:431-434): hotkey bound
to the symbolic name via its position in the active loadout, index 0 (key
`4`) when the name is unknown. -/
def get_trap_key (env : TDEnv) (name : String) : Char :=
  let index := match env.active_loadout.findIdx? (fun t => t == name) with
    | some i => i
    | none => 0
  match index with
  | 0 => '4'
  | 1 => '5'
  | 2 => '6'
  | 3 => '7'
  | _ => '1'

/-- The Rust `format!("{}-{}-{}", name, wave_num, is_late)` ledger key of an
upgrade (tower_defense.rs:263,329). -/
def upgrade_key (u : UpgradeEvent) : String :=
  u.building_name ++ "-" ++ toString u.wave_num ++ "-" ++
    (bif u.is_late then "true" else "false")

/-- Model of `execute_specific_demolishes` (tower_defense.rs:272-293): per event,
resolve the map pixel, correct the camera, clamp the on-screen point into
the safe zone, move there, left-click, press `p`, and record the uid; an
event whose pixel cannot be resolved (no terrain loaded) is skipped whole. -/
def execute_specific_demolishes : TDEnv → ExecSt → List DemolishEvent → ExecSt × List Action
  | _, st, [] => (st, [])
  | env, st, d :: rest =>
    match get_absolute_map_pixel env d.grid_x d.grid_y d.width d.height with
    | none => execute_specific_demolishes env st rest
    | some (map_px, map_py) =>
      let r1 := ensure_target_in_safe_zone env st map_px map_py
      let st1 := r1.1
      let screen_x := map_px - st1.camera_offset_x
      let screen_y := map_py - st1.camera_offset_y
      let final_x := clampQ screen_x (env.config.safe_zone_x1 : ℚ) (env.config.safe_zone_x2 : ℚ)
      let final_y := clampQ screen_y (env.config.safe_zone_y1 : ℚ) (env.config.safe_zone_y2 : ℚ)
      let acts := [Action.moveTo (f32_as_u16 final_x) (f32_as_u16 final_y) (2 / 5),
        Action.click true false 0, Action.keyClick 'p']
      let st2 := { st1 with completed_demolish_uids := d.uid :: st1.completed_demolish_uids }
      let r2 := execute_specific_demolishes env st2 rest
      (r2.1, r1.2 ++ acts ++ r2.2)

/-- Model of `execute_specific_placements` (tower_defense.rs:295-320): like demolish
but the hotkey press is skipped when the previous item already selected the
same key, and the device action is a double-click.  `last_key` threads the
source's loop-local `last_key` variable. -/
def execute_specific_placements : TDEnv → ExecSt → Option Char → List BuildingExport →
    ExecSt × List Action
  | _, st, _, [] => (st, [])
  | env, st, last_key, b :: rest =>
    match get_absolute_map_pixel env b.grid_x b.grid_y b.width b.height with
    | none => execute_specific_placements env st last_key rest
    | some (map_px, map_py) =>
      let r1 := ensure_target_in_safe_zone env st map_px map_py
      let st1 := r1.1
      let screen_x := map_px - st1.camera_offset_x
      let screen_y := map_py - st1.camera_offset_y
      let final_x := clampQ screen_x (env.config.safe_zone_x1 : ℚ) (env.config.safe_zone_x2 : ℚ)
      let final_y := clampQ screen_y (env.config.safe_zone_y1 : ℚ) (env.config.safe_zone_y2 : ℚ)
      let key := get_trap_key env b.name
      let acts := [Action.moveTo (f32_as_u16 final_x) (f32_as_u16 final_y) (7 / 20)] ++
        (bif some key == last_key then [] else [Action.keyClick key]) ++
        [Action.doubleClick true false]
      let st2 := { st1 with placed_uids := b.uid :: st1.placed_uids }
      let r2 := execute_specific_placements env st2 (some key) rest
      (r2.1, r1.2 ++ acts ++ r2.2)

/-- Model of `execute_specific_upgrades` (tower_defense.rs:322-333): per event, hold
the bound hotkey for 800 ms and record the ledger key.  No camera work and
no terrain dependence. -/
def execute_specific_upgrades : TDEnv → ExecSt → List UpgradeEvent → ExecSt × List Action
  | _, st, [] => (st, [])
  | env, st, u :: rest =>
    let key := get_trap_key env u.building_name
    let st1 := { st with completed_upgrade_keys := upgrade_key u :: st.completed_upgrade_keys }
    let r := execute_specific_upgrades env st1 rest
    (r.1, Action.keyHold key 800 :: r.2)

/-- Model of `execute_wave_phase` (tower_defense.rs:238-270): select and run, in
fixed order, the demolishes, then the placements, then the upgrades that
match `(wave, phase)` and are not yet in the completed ledger. -/
def execute_wave_phase (env : TDEnv) (st : ExecSt) (wave : Int) (is_late : Bool) :
    ExecSt × List Action :=
  let to_demolish := env.strategy_demolishes.filter
    (fun d => d.wave_num == wave && d.is_late == is_late &&
      !(st.completed_demolish_uids.contains d.uid))
  let r1 := bif to_demolish.isEmpty then (st, [])
    else execute_specific_demolishes env st to_demolish
  let st1 := r1.1
  let to_place := env.strategy_buildings.filter
    (fun b => b.wave_num == wave && b.is_late == is_late &&
      !(st1.placed_uids.contains b.uid))
  let r2 := bif to_place.isEmpty then (st1, [])
    else execute_specific_placements env st1 none to_place
  let st2 := r2.1
  let to_upgrade := (env.strategy_upgrades.filter
    (fun u => u.wave_num == wave && u.is_late == is_late)).filter
    (fun u => !(st2.completed_upgrade_keys.contains (upgrade_key u)))
  let r3 := bif to_upgrade.isEmpty then (st2, [])
    else execute_specific_upgrades env st2 to_upgrade
  (r3.1, r1.2 ++ r2.2 ++ r3.2)

/-- Does every pointer move in an action list land inside the configured
safe interaction rectangle? -/
def moves_in_safe_zone (cfg : TDConfig) (acts : List Action) : Bool :=
  acts.all fun a =>
    match a with
    | Action.moveTo x y _ =>
      decide (cfg.safe_zone_x1 ≤ x) && decide (x ≤ cfg.safe_zone_x2) &&
        decide (cfg.safe_zone_y1 ≤ y) && decide (y ≤ cfg.safe_zone_y2)
    | _ => true

/-- Result type `WaveStatus` (tower_defense.rs:100-103). -/
structure WaveStatus where
  current_wave : Int
deriving Repr, DecidableEq

/-- Does the regex `波次(\d+)` match at this exact position?  (`\d` is
modelled as the ASCII digits the recognizer can actually produce.) -/
def startsWithWavePattern : List Char → Bool
  | c1 :: c2 :: d :: _ => c1 == '波' && c2 == '次' && d.isDigit
  | _ => false

/-- Group 1 of the leftmost match of `波次(\d+)` in the text: the maximal
digit run after the first marker that is followed by at least one digit;
`none` when the pattern is absent. -/
def wave_captures : List Char → Option (List Char)
  | [] => none
  | c :: rest =>
    if startsWithWavePattern (c :: rest) then some ((rest.drop 1).takeWhile Char.isDigit)
    else wave_captures rest

/-- Does the text contain the wave-marker-plus-digits pattern anywhere? -/
def hasWavePattern : List Char → Bool
  | [] => false
  | c :: rest => startsWithWavePattern (c :: rest) || hasWavePattern rest

/-- Numeric value of a digit run. -/
def digitsToNat (ds : List Char) : Nat :=
  ds.foldl (fun acc c => acc * 10 + (c.toNat - 48)) 0

/-- Rust `str::parse::<i32>` restricted to the captured `\d+` group: no
sign, so it succeeds exactly when the value fits in `i32`. -/
def parse_i32_digits (ds : List Char) : Option Int :=
  if ds.isEmpty then none
  else if digitsToNat ds ≤ 2147483647 then some (digitsToNat ds : Int) else none

/-- The text-to-value part of `recognize_wave_status`
(tower_defense.rs:174-222) as a function of the OCR text: the TAB
hold/release toggling around the capture only gates which region is
sampled and is external to this computation.  Empty text is no signal; a
regex miss is no signal; a parse failure propagates as `None` via `?`. -/
def recognize_wave_status (text : List Char) : Option WaveStatus :=
  if text.isEmpty then none
  else
    match wave_captures text with
    | some ds =>
      match parse_i32_digits ds with
      | some v => some ⟨v⟩
      | none => none
    | none => none

/-- The terrain meta of the spec's worked example:
`grid_pixel_size = 10`, `offset = (0,0)`, `bottom = 1200`. -/
def example_meta : MapMeta :=
  { grid_pixel_size := 10, offset_x := 0, offset_y := 0, bottom := 1200 }

/-- A run environment holding the default config, the example terrain and
the deployed camera speed (720 px/s), with empty strategy lists. -/
def example_env : TDEnv :=
  { config := default_config, map_meta := some example_meta,
    strategy_buildings := [], strategy_upgrades := [], strategy_demolishes := [],
    active_loadout := [], move_speed := 720 }

/-- The empty execution state created at run start. -/
def example_st : ExecSt :=
  { placed_uids := [], completed_upgrade_keys := [], completed_demolish_uids := [],
    camera_offset_x := 0, camera_offset_y := 0 }

/-- A building scheduled for wave 1, early phase, at grid (2,3), 2x2. -/
def example_building : BuildingExport :=
  { uid := 1, name := "x", grid_x := 2, grid_y := 3, width := 2, height := 2,
    wave_num := 1, is_late := false }

/-- The example environment with one scheduled building. -/
def example_env2 : TDEnv :=
  { example_env with strategy_buildings := [example_building] }

theorem minQ_eq_min (a b : ℚ) : minQ a b = min a b := (min_def a b).symm

theorem maxQ_eq_max (a b : ℚ) : maxQ a b = max a b := (max_def a b).symm

theorem clampQ_mem (x lo hi : ℚ) (h : lo ≤ hi) :
    lo ≤ clampQ x lo hi ∧ clampQ x lo hi ≤ hi := by
  unfold clampQ
  rw [maxQ_eq_max, minQ_eq_min]
  refine ⟨le_max_left _ _, ?_⟩
  exact max_le h (min_le_right _ _)


theorem ensure_loop_succ (cfg : TDConfig) (move_speed ty : ℚ) (isb : Bool)
    (maxOff : ℚ) (n : Nat) (offy : ℚ) :
    ensure_loop cfg move_speed ty isb maxOff (n + 1) offy =
      match ensure_step cfg move_speed ty isb maxOff offy with
      | none => (offy, [])
      | some (target_offset, act) =>
        bif isb then (target_offset, [act])
        else
          let r := ensure_loop cfg move_speed ty isb maxOff n target_offset
          (r.1, act :: r.2) := rfl

theorem ensure_loop_zero (cfg : TDConfig) (move_speed ty : ℚ) (isb : Bool)
    (maxOff : ℚ) (offy : ℚ) :
    ensure_loop cfg move_speed ty isb maxOff 0 offy = (offy, []) := rfl

theorem ensure_loop_one (cfg : TDConfig) (move_speed ty : ℚ) (isb : Bool)
    (maxOff : ℚ) (offy : ℚ) :
    ensure_loop cfg move_speed ty isb maxOff 1 offy =
      match ensure_step cfg move_speed ty isb maxOff offy with
      | none => (offy, [])
      | some (target_offset, act) =>
        bif isb then (target_offset, [act])
        else
          let r := ensure_loop cfg move_speed ty isb maxOff 0 target_offset
          (r.1, act :: r.2) :=
  ensure_loop_succ cfg move_speed ty isb maxOff 0 offy

theorem ensure_loop_two (cfg : TDConfig) (move_speed ty : ℚ) (isb : Bool)
    (maxOff : ℚ) (offy : ℚ) :
    ensure_loop cfg move_speed ty isb maxOff 2 offy =
      match ensure_step cfg move_speed ty isb maxOff offy with
      | none => (offy, [])
      | some (target_offset, act) =>
        bif isb then (target_offset, [act])
        else
          let r := ensure_loop cfg move_speed ty isb maxOff 1 target_offset
          (r.1, act :: r.2) :=
  ensure_loop_succ cfg move_speed ty isb maxOff 1 offy

/-- When the centering policy applies, the updated offset is a fixed point of
the clamped centering update, so the very next pass through the loop body
`break`s: a second update can never be issued. -/
theorem ensure_step_fixpoint (cfg : TDConfig) (move_speed ty : ℚ) (maxOff : ℚ)
    (offy t : ℚ) (a : Action)
    (hs : ensure_step cfg move_speed ty false maxOff offy = some (t, a)) :
    ensure_step cfg move_speed ty false maxOff t = none := by
  unfold ensure_step at hs ⊢
  simp only [cond_false] at hs ⊢
  split at hs
  · exact absurd hs (by simp)
  · split at hs
    · exact absurd hs (by simp)
    · have ht : t = clampQ (offy + (ty - offy -
          ((cfg.safe_zone_y1 + cfg.safe_zone_y2 : Int) : ℚ) / 2)) 0 maxOff := by
        have := (Option.some.injEq _ _).mp hs
        exact (congrArg Prod.fst this).symm
      have harg : offy + (ty - offy - ((cfg.safe_zone_y1 + cfg.safe_zone_y2 : Int) : ℚ) / 2) =
          ty - ((cfg.safe_zone_y1 + cfg.safe_zone_y2 : Int) : ℚ) / 2 := by ring
      rw [harg] at ht
      split
      · rfl
      · have harg2 : t + (ty - t - ((cfg.safe_zone_y1 + cfg.safe_zone_y2 : Int) : ℚ) / 2) =
            ty - ((cfg.safe_zone_y1 + cfg.safe_zone_y2 : Int) : ℚ) / 2 := by ring
        simp only [harg2]
        simp only [ht]
        simp only [sub_self, abs_zero]
        norm_num

/-- Any fuel of at least 2 gives the same result as fuel 2: the source's
unbounded `loop` exits within two iterations (one update at most). -/
theorem ensure_loop_stable (cfg : TDConfig) (move_speed ty : ℚ) (isb : Bool)
    (maxOff : ℚ) (n : Nat) (offy : ℚ) :
    ensure_loop cfg move_speed ty isb maxOff (n + 2) offy =
      ensure_loop cfg move_speed ty isb maxOff (1 + 1) offy := by
  rw [show n + 2 = (n + 1) + 1 from rfl, ensure_loop_succ, ensure_loop_succ cfg move_speed ty isb maxOff 1]
  cases hstep : ensure_step cfg move_speed ty isb maxOff offy with
  | none => rfl
  | some ta =>
    obtain ⟨t, a⟩ := ta
    cases isb with
    | true => rfl
    | false =>
      simp only [cond_false]
      have hnone := ensure_step_fixpoint cfg move_speed ty maxOff offy t a hstep
      rw [ensure_loop_succ, ensure_loop_succ, hnone]

/-- Every offset a step installs is either `max_offset_y` itself or a value
clamped into `[0, max_offset_y]`. -/
theorem ensure_step_target_bounds (cfg : TDConfig) (move_speed ty : ℚ) (isb : Bool)
    (maxOff : ℚ) (hmax : 0 ≤ maxOff) (offy t : ℚ) (a : Action)
    (hs : ensure_step cfg move_speed ty isb maxOff offy = some (t, a)) :
    0 ≤ t ∧ t ≤ maxOff := by
  cases isb with
  | true =>
    simp only [ensure_step, cond_true] at hs
    split at hs
    · exact absurd hs (by simp)
    · split at hs
      · exact absurd hs (by simp)
      · simp only [Option.some.injEq, Prod.mk.injEq] at hs
        exact hs.1 ▸ ⟨hmax, le_refl _⟩
  | false =>
    simp only [ensure_step, cond_false] at hs
    split at hs
    · exact absurd hs (by simp)
    · split at hs
      · exact absurd hs (by simp)
      · simp only [Option.some.injEq, Prod.mk.injEq] at hs
        exact hs.1 ▸ clampQ_mem _ _ _ hmax

theorem ensure_loop_offset_bounds (cfg : TDConfig) (move_speed ty : ℚ) (isb : Bool)
    (maxOff : ℚ) (hmax : 0 ≤ maxOff) (fuel : Nat) :
    ∀ offy : ℚ, 0 ≤ offy → offy ≤ maxOff →
      0 ≤ (ensure_loop cfg move_speed ty isb maxOff fuel offy).1 ∧
        (ensure_loop cfg move_speed ty isb maxOff fuel offy).1 ≤ maxOff := by
  induction fuel with
  | zero => intro offy h0 h1; exact ⟨h0, h1⟩
  | succ n ih =>
    intro offy h0 h1
    rw [ensure_loop_succ]
    cases hstep : ensure_step cfg move_speed ty isb maxOff offy with
    | none => exact ⟨h0, h1⟩
    | some ta =>
      obtain ⟨t, a⟩ := ta
      have ht := ensure_step_target_bounds cfg move_speed ty isb maxOff hmax offy t a hstep
      cases isb with
      | true => simpa using ht
      | false =>
        simp only [cond_false]
        exact ih t ht.1 ht.2

/-- C3: for every target and every starting camera state satisfying the
CameraState invariant, `ensure_target_in_safe_zone` keeps the vertical
offset within `[0, max(0, map.bottom − viewport_height)]`. -/
theorem ensure_visible_offset_invariant (env : TDEnv) (st : ExecSt) (tx ty : ℚ)
    (meta : MapMeta) (hm : env.map_meta = some meta)
    (h0 : 0 ≤ st.camera_offset_y)
    (h1 : st.camera_offset_y ≤ maxQ 0 (meta.bottom - env.config.screen_height)) :
    0 ≤ (ensure_target_in_safe_zone env st tx ty).1.camera_offset_y ∧
      (ensure_target_in_safe_zone env st tx ty).1.camera_offset_y ≤
        maxQ 0 (meta.bottom - env.config.screen_height) := by
  have hflip : maxQ 0 (meta.bottom - env.config.screen_height) =
      maxQ (meta.bottom - env.config.screen_height) 0 := by
    rw [maxQ_eq_max, maxQ_eq_max, max_comm]
  have hmax : (0 : ℚ) ≤ maxQ (meta.bottom - env.config.screen_height) 0 := by
    rw [maxQ_eq_max]; exact le_max_right _ _
  have h1x : st.camera_offset_y ≤ maxQ (meta.bottom - env.config.screen_height) 0 :=
    hflip ▸ h1
  have hb := ensure_loop_offset_bounds env.config env.move_speed ty
    (decide (ty > meta.bottom - (env.config.screen_height - (env.config.safe_zone_y1 : ℚ))))
    (maxQ (meta.bottom - env.config.screen_height) 0) hmax 2 st.camera_offset_y h0 h1x
  rw [hflip]
  unfold ensure_target_in_safe_zone
  rw [hm]
  exact hb

/-- Witness for C3 at the spec's worked example (target 1000 on the
1200-bottom map from offset 0). -/
theorem ensure_visible_offset_invariant_witness :
    example_env.map_meta = some example_meta ∧
      (0 : ℚ) ≤ example_st.camera_offset_y ∧
      example_st.camera_offset_y ≤
        maxQ 0 (example_meta.bottom - example_env.config.screen_height) ∧
      (0 ≤ (ensure_target_in_safe_zone example_env example_st 0 1000).1.camera_offset_y ∧
        (ensure_target_in_safe_zone example_env example_st 0 1000).1.camera_offset_y ≤
          maxQ 0 (example_meta.bottom - example_env.config.screen_height)) :=
  ⟨rfl, by norm_num [example_st],
    by norm_num [example_st, example_meta, example_env, default_config, maxQ],
    ensure_visible_offset_invariant example_env example_st 0 1000 example_meta rfl
      (by norm_num [example_st])
      (by norm_num [example_st, example_meta, example_env, default_config, maxQ])⟩

/-- C8: `ensure_target_in_safe_zone` never touches the horizontal camera
offset, whatever the target and starting state. -/
theorem ensure_visible_preserves_offset_x (env : TDEnv) (st : ExecSt) (tx ty : ℚ) :
    (ensure_target_in_safe_zone env st tx ty).1.camera_offset_x = st.camera_offset_x := by
  cases hm : env.map_meta with
  | none => simp [ensure_target_in_safe_zone, hm]
  | some meta => simp [ensure_target_in_safe_zone, hm]

/-- If the target already sits inside the safe band, the loop exits at once
without acting, at any fuel. -/
theorem ensure_loop_inzone (cfg : TDConfig) (move_speed ty : ℚ) (isb : Bool)
    (maxOff : ℚ) (fuel : Nat) (offy : ℚ)
    (hin : (cfg.safe_zone_y1 : ℚ) ≤ ty - offy ∧ ty - offy ≤ (cfg.safe_zone_y2 : ℚ)) :
    ensure_loop cfg move_speed ty isb maxOff fuel offy = (offy, []) := by
  cases fuel with
  | zero => rfl
  | succ n =>
    rw [ensure_loop_succ]
    unfold ensure_step
    rw [if_pos hin]

/-- In the bottom zone, once the loop body decides to act it installs exactly
`max_offset_y` and exits. -/
theorem ensure_loop_bottom (cfg : TDConfig) (move_speed ty maxOff : ℚ) (n : Nat)
    (offy : ℚ)
    (hout : ¬ ((cfg.safe_zone_y1 : ℚ) ≤ ty - offy ∧ ty - offy ≤ (cfg.safe_zone_y2 : ℚ)))
    (hfar : ¬ (|maxOff - offy| < 5)) :
    (ensure_loop cfg move_speed ty true maxOff (n + 1) offy).1 = maxOff := by
  rw [ensure_loop_succ]
  unfold ensure_step
  rw [if_neg hout]
  simp only [cond_true]
  rw [if_neg hfar]

/-- C2 (amended): if the bottom-zone condition holds, the starting offset
satisfies the camera invariant, the target is not already inside the safe
band, and the distance to `max_offset_y` is at least the 5-pixel epsilon,
then one call to `ensure_target_in_safe_zone` sets `offset_y` to exactly
`max(0, bottom − viewport_height)`. -/
theorem ensure_bottom_snap (env : TDEnv) (st : ExecSt) (meta : MapMeta) (tx ty : ℚ)
    (hm : env.map_meta = some meta)
    (hbz : ty > meta.bottom - (env.config.screen_height - (env.config.safe_zone_y1 : ℚ)))
    (h0 : 0 ≤ st.camera_offset_y)
    (h1 : st.camera_offset_y ≤ maxQ 0 (meta.bottom - env.config.screen_height))
    (hout : ¬ ((env.config.safe_zone_y1 : ℚ) ≤ ty - st.camera_offset_y ∧
        ty - st.camera_offset_y ≤ (env.config.safe_zone_y2 : ℚ)))
    (hfar : 5 ≤ |maxQ (meta.bottom - env.config.screen_height) 0 - st.camera_offset_y|) :
    (ensure_target_in_safe_zone env st tx ty).1.camera_offset_y =
      maxQ 0 (meta.bottom - env.config.screen_height) := by
  have hflip : maxQ 0 (meta.bottom - env.config.screen_height) =
      maxQ (meta.bottom - env.config.screen_height) 0 := by
    rw [maxQ_eq_max, maxQ_eq_max, max_comm]
  rw [hflip]
  unfold ensure_target_in_safe_zone
  rw [hm]
  have hisb : decide (ty > meta.bottom - (env.config.screen_height -
      (env.config.safe_zone_y1 : ℚ))) = true := decide_eq_true hbz
  dsimp only
  rw [hisb]
  exact ensure_loop_bottom env.config env.move_speed ty
    (maxQ (meta.bottom - env.config.screen_height) 0) 1 st.camera_offset_y hout
    (not_lt.mpr hfar)

/-- Witness for C2 (amended) at the spec's worked example: `safe_zone`
`[200,200,1720,880]`, `offset_y = 0`, `bottom = 1200`, viewport height 1080,
`target_y = 1000` gives `offset_y = max_offset_y = 120` in one call. -/
theorem ensure_bottom_snap_witness :
    (ensure_target_in_safe_zone example_env example_st 0 1000).1.camera_offset_y =
        maxQ 0 (example_meta.bottom - example_env.config.screen_height) ∧
      maxQ 0 (example_meta.bottom - example_env.config.screen_height) = (120 : ℚ) :=
  ⟨ensure_bottom_snap example_env example_st example_meta 0 1000 rfl
      (by norm_num [example_meta, example_env, default_config])
      (by norm_num [example_st])
      (by norm_num [example_st, example_meta, example_env, default_config, maxQ])
      (by norm_num [example_st, example_env, default_config])
      (by norm_num [example_st, example_meta, example_env, default_config, maxQ,
        abs_of_nonneg]),
    by norm_num [example_meta, example_env, default_config, maxQ]⟩

/-- C2 counterexample: `target_y = 350` satisfies the bottom-zone condition
(350 > 1200 − (1080 − 200) = 320) and the start offset 0 lies in
`[0, max_offset_y]`, yet the target is already inside the safe band, so the
call leaves `offset_y` at 0 instead of snapping it to `max_offset_y = 120`. -/
theorem ensure_bottom_snap_counterexample :
    ((350 : ℚ) > example_meta.bottom - (example_env.config.screen_height -
        (example_env.config.safe_zone_y1 : ℚ)))
    ∧ (0 : ℚ) ≤ example_st.camera_offset_y
    ∧ example_st.camera_offset_y ≤
        maxQ 0 (example_meta.bottom - example_env.config.screen_height)
    ∧ (ensure_target_in_safe_zone example_env example_st 0 350).1.camera_offset_y ≠
        maxQ 0 (example_meta.bottom - example_env.config.screen_height) := by
  refine ⟨by norm_num [example_meta, example_env, default_config],
    by norm_num [example_st],
    by norm_num [example_st, example_meta, example_env, default_config, maxQ], ?_⟩
  have h350 : (ensure_target_in_safe_zone example_env example_st 0 350).1.camera_offset_y =
      example_st.camera_offset_y := by
    unfold ensure_target_in_safe_zone
    rw [show example_env.map_meta = some example_meta from rfl]
    dsimp only
    rw [ensure_loop_inzone _ _ _ _ _ _ _
      (by norm_num [example_st, example_env, default_config])]
  rw [h350]
  norm_num [example_st, example_meta, example_env, default_config, maxQ]

/-- C4: with terrain loaded, the world-to-pixel mapping returns
`offset + (grid + extent/2) × cell_size` per axis — the footprint's
centroid. -/
theorem get_absolute_map_pixel_centroid (env : TDEnv) (meta : MapMeta)
    (hm : env.map_meta = some meta) (gx gy w h : Nat) :
    get_absolute_map_pixel env gx gy w h =
      some (meta.offset_x + ((gx : ℚ) + (w : ℚ) / 2) * meta.grid_pixel_size,
        meta.offset_y + ((gy : ℚ) + (h : ℚ) / 2) * meta.grid_pixel_size) := by
  unfold get_absolute_map_pixel
  rw [hm]

/-- Witness for C4 at the spec's example: `grid_pixel_size = 10`,
`offset = (0,0)`, grid `(2,3)`, size `(2,2)` maps to pixel `(30, 40)`. -/
theorem get_absolute_map_pixel_centroid_witness :
    example_env.map_meta = some example_meta ∧
      get_absolute_map_pixel example_env 2 3 2 2 = some (30, 40) := by
  refine ⟨rfl, ?_⟩
  rw [get_absolute_map_pixel_centroid example_env example_meta rfl 2 3 2 2]
  norm_num [example_meta]

theorem ensure_placed_eq (env : TDEnv) (st : ExecSt) (tx ty : ℚ) :
    (ensure_target_in_safe_zone env st tx ty).1.placed_uids = st.placed_uids := by
  cases hm : env.map_meta with
  | none => simp [ensure_target_in_safe_zone, hm]
  | some meta => simp [ensure_target_in_safe_zone, hm]

theorem ensure_keys_eq (env : TDEnv) (st : ExecSt) (tx ty : ℚ) :
    (ensure_target_in_safe_zone env st tx ty).1.completed_upgrade_keys =
      st.completed_upgrade_keys := by
  cases hm : env.map_meta with
  | none => simp [ensure_target_in_safe_zone, hm]
  | some meta => simp [ensure_target_in_safe_zone, hm]

theorem ensure_demuids_eq (env : TDEnv) (st : ExecSt) (tx ty : ℚ) :
    (ensure_target_in_safe_zone env st tx ty).1.completed_demolish_uids =
      st.completed_demolish_uids := by
  cases hm : env.map_meta with
  | none => simp [ensure_target_in_safe_zone, hm]
  | some meta => simp [ensure_target_in_safe_zone, hm]

theorem demolishes_placed_eq (env : TDEnv) (tasks : List DemolishEvent) :
    ∀ st : ExecSt,
      (execute_specific_demolishes env st tasks).1.placed_uids = st.placed_uids := by
  induction tasks with
  | nil => intro st; rfl
  | cons d rest ih =>
    intro st
    rw [execute_specific_demolishes]
    cases hpx : get_absolute_map_pixel env d.grid_x d.grid_y d.width d.height with
    | none => exact ih st
    | some pxy =>
      obtain ⟨px, py⟩ := pxy
      dsimp only
      rw [ih _]
      exact ensure_placed_eq env st px py

theorem demolishes_keys_eq (env : TDEnv) (tasks : List DemolishEvent) :
    ∀ st : ExecSt,
      (execute_specific_demolishes env st tasks).1.completed_upgrade_keys =
        st.completed_upgrade_keys := by
  induction tasks with
  | nil => intro st; rfl
  | cons d rest ih =>
    intro st
    rw [execute_specific_demolishes]
    cases hpx : get_absolute_map_pixel env d.grid_x d.grid_y d.width d.height with
    | none => exact ih st
    | some pxy =>
      obtain ⟨px, py⟩ := pxy
      dsimp only
      rw [ih _]
      exact ensure_keys_eq env st px py

theorem demolishes_uid_mono (env : TDEnv) (tasks : List DemolishEvent) :
    ∀ (st : ExecSt) (u : Nat), u ∈ st.completed_demolish_uids →
      u ∈ (execute_specific_demolishes env st tasks).1.completed_demolish_uids := by
  induction tasks with
  | nil => intro st u h; exact h
  | cons d rest ih =>
    intro st u h
    rw [execute_specific_demolishes]
    cases hpx : get_absolute_map_pixel env d.grid_x d.grid_y d.width d.height with
    | none => exact ih st u h
    | some pxy =>
      obtain ⟨px, py⟩ := pxy
      dsimp only
      refine ih _ u ?_
      show u ∈ d.uid :: (ensure_target_in_safe_zone env st px py).1.completed_demolish_uids
      rw [ensure_demuids_eq env st px py]
      exact List.mem_cons_of_mem _ h

theorem demolishes_uid_mem (env : TDEnv) (meta : MapMeta) (hm : env.map_meta = some meta)
    (tasks : List DemolishEvent) :
    ∀ (st : ExecSt) (d : DemolishEvent), d ∈ tasks →
      d.uid ∈ (execute_specific_demolishes env st tasks).1.completed_demolish_uids := by
  induction tasks with
  | nil => intro st d h; exact absurd h (List.not_mem_nil d)
  | cons e rest ih =>
    intro st d h
    rw [execute_specific_demolishes]
    rw [get_absolute_map_pixel_centroid env meta hm e.grid_x e.grid_y e.width e.height]
    dsimp only
    rcases List.mem_cons.mp h with h1 | h1
    · subst h1
      apply demolishes_uid_mono
      exact List.mem_cons_self _ _
    · exact ih _ d h1

theorem demolishes_no_meta (env : TDEnv) (hm : env.map_meta = none)
    (tasks : List DemolishEvent) :
    ∀ st : ExecSt, execute_specific_demolishes env st tasks = (st, []) := by
  induction tasks with
  | nil => intro st; rfl
  | cons d rest ih =>
    intro st
    rw [execute_specific_demolishes]
    have hpx : get_absolute_map_pixel env d.grid_x d.grid_y d.width d.height = none := by
      unfold get_absolute_map_pixel; rw [hm]
    rw [hpx]
    exact ih st

theorem placements_demuids_eq (env : TDEnv) (tasks : List BuildingExport) :
    ∀ (st : ExecSt) (lk : Option Char),
      (execute_specific_placements env st lk tasks).1.completed_demolish_uids =
        st.completed_demolish_uids := by
  induction tasks with
  | nil => intro st lk; rfl
  | cons b rest ih =>
    intro st lk
    rw [execute_specific_placements]
    cases hpx : get_absolute_map_pixel env b.grid_x b.grid_y b.width b.height with
    | none => exact ih st lk
    | some pxy =>
      obtain ⟨px, py⟩ := pxy
      dsimp only
      rw [ih _ _]
      exact ensure_demuids_eq env st px py

theorem placements_keys_eq (env : TDEnv) (tasks : List BuildingExport) :
    ∀ (st : ExecSt) (lk : Option Char),
      (execute_specific_placements env st lk tasks).1.completed_upgrade_keys =
        st.completed_upgrade_keys := by
  induction tasks with
  | nil => intro st lk; rfl
  | cons b rest ih =>
    intro st lk
    rw [execute_specific_placements]
    cases hpx : get_absolute_map_pixel env b.grid_x b.grid_y b.width b.height with
    | none => exact ih st lk
    | some pxy =>
      obtain ⟨px, py⟩ := pxy
      dsimp only
      rw [ih _ _]
      exact ensure_keys_eq env st px py

theorem placements_uid_mono (env : TDEnv) (tasks : List BuildingExport) :
    ∀ (st : ExecSt) (lk : Option Char) (u : Nat), u ∈ st.placed_uids →
      u ∈ (execute_specific_placements env st lk tasks).1.placed_uids := by
  induction tasks with
  | nil => intro st lk u h; exact h
  | cons b rest ih =>
    intro st lk u h
    rw [execute_specific_placements]
    cases hpx : get_absolute_map_pixel env b.grid_x b.grid_y b.width b.height with
    | none => exact ih st lk u h
    | some pxy =>
      obtain ⟨px, py⟩ := pxy
      dsimp only
      refine ih _ _ u ?_
      show u ∈ b.uid :: (ensure_target_in_safe_zone env st px py).1.placed_uids
      rw [ensure_placed_eq env st px py]
      exact List.mem_cons_of_mem _ h

theorem placements_uid_mem (env : TDEnv) (meta : MapMeta) (hm : env.map_meta = some meta)
    (tasks : List BuildingExport) :
    ∀ (st : ExecSt) (lk : Option Char) (b : BuildingExport), b ∈ tasks →
      b.uid ∈ (execute_specific_placements env st lk tasks).1.placed_uids := by
  induction tasks with
  | nil => intro st lk b h; exact absurd h (List.not_mem_nil b)
  | cons e rest ih =>
    intro st lk b h
    rw [execute_specific_placements]
    rw [get_absolute_map_pixel_centroid env meta hm e.grid_x e.grid_y e.width e.height]
    dsimp only
    rcases List.mem_cons.mp h with h1 | h1
    · subst h1
      apply placements_uid_mono
      exact List.mem_cons_self _ _
    · exact ih _ _ b h1

theorem placements_no_meta (env : TDEnv) (hm : env.map_meta = none)
    (tasks : List BuildingExport) :
    ∀ (st : ExecSt) (lk : Option Char),
      execute_specific_placements env st lk tasks = (st, []) := by
  induction tasks with
  | nil => intro st lk; rfl
  | cons b rest ih =>
    intro st lk
    rw [execute_specific_placements]
    have hpx : get_absolute_map_pixel env b.grid_x b.grid_y b.width b.height = none := by
      unfold get_absolute_map_pixel; rw [hm]
    rw [hpx]
    exact ih st lk

theorem upgrades_demuids_eq (env : TDEnv) (tasks : List UpgradeEvent) :
    ∀ st : ExecSt,
      (execute_specific_upgrades env st tasks).1.completed_demolish_uids =
        st.completed_demolish_uids := by
  induction tasks with
  | nil => intro st; rfl
  | cons u rest ih =>
    intro st
    rw [execute_specific_upgrades]
    exact ih _

theorem upgrades_placed_eq (env : TDEnv) (tasks : List UpgradeEvent) :
    ∀ st : ExecSt,
      (execute_specific_upgrades env st tasks).1.placed_uids = st.placed_uids := by
  induction tasks with
  | nil => intro st; rfl
  | cons u rest ih =>
    intro st
    rw [execute_specific_upgrades]
    exact ih _

theorem upgrades_key_mono (env : TDEnv) (tasks : List UpgradeEvent) :
    ∀ (st : ExecSt) (k : String), k ∈ st.completed_upgrade_keys →
      k ∈ (execute_specific_upgrades env st tasks).1.completed_upgrade_keys := by
  induction tasks with
  | nil => intro st k h; exact h
  | cons u rest ih =>
    intro st k h
    rw [execute_specific_upgrades]
    refine ih _ k ?_
    exact List.mem_cons_of_mem _ h

theorem upgrades_key_mem (env : TDEnv) (tasks : List UpgradeEvent) :
    ∀ (st : ExecSt) (u : UpgradeEvent), u ∈ tasks →
      upgrade_key u ∈ (execute_specific_upgrades env st tasks).1.completed_upgrade_keys := by
  induction tasks with
  | nil => intro st u h; exact absurd h (List.not_mem_nil u)
  | cons e rest ih =>
    intro st u h
    rw [execute_specific_upgrades]
    rcases List.mem_cons.mp h with h1 | h1
    · subst h1
      apply upgrades_key_mono
      exact List.mem_cons_self _ _
    · exact ih _ u h1

theorem cond_demolishes (env : TDEnv) (st : ExecSt) (tasks : List DemolishEvent) :
    (bif tasks.isEmpty then (st, ([] : List Action))
      else execute_specific_demolishes env st tasks) =
      execute_specific_demolishes env st tasks := by
  cases tasks with
  | nil => rfl
  | cons d rest => rfl

theorem cond_placements (env : TDEnv) (st : ExecSt) (tasks : List BuildingExport) :
    (bif tasks.isEmpty then (st, ([] : List Action))
      else execute_specific_placements env st none tasks) =
      execute_specific_placements env st none tasks := by
  cases tasks with
  | nil => rfl
  | cons b rest => rfl

theorem cond_upgrades (env : TDEnv) (st : ExecSt) (tasks : List UpgradeEvent) :
    (bif tasks.isEmpty then (st, ([] : List Action))
      else execute_specific_upgrades env st tasks) =
      execute_specific_upgrades env st tasks := by
  cases tasks with
  | nil => rfl
  | cons u rest => rfl

theorem contains_eq_true {α : Type} [BEq α] [LawfulBEq α] (l : List α) (x : α)
    (h : x ∈ l) : l.contains x = true :=
  List.elem_eq_true_of_mem h

theorem contains_eq_false {α : Type} [BEq α] [LawfulBEq α] (l : List α) (x : α)
    (h : x ∉ l) : l.contains x = false := by
  cases hb : l.contains x with
  | false => rfl
  | true => exact absurd (List.mem_of_elem_eq_true hb) h

theorem demolishes_cover_filtered (env : TDEnv) (meta : MapMeta)
    (hm : env.map_meta = some meta) (S : ExecSt) (l : List DemolishEvent)
    (wave : Int) (late : Bool) (d : DemolishEvent) (hd : d ∈ l)
    (hmatch : (d.wave_num == wave && d.is_late == late) = true) :
    d.uid ∈ (execute_specific_demolishes env S
      (l.filter (fun v => v.wave_num == wave && v.is_late == late &&
        !(S.completed_demolish_uids.contains v.uid)))).1.completed_demolish_uids := by
  by_cases hk : d.uid ∈ S.completed_demolish_uids
  · exact demolishes_uid_mono env _ S d.uid hk
  · refine demolishes_uid_mem env meta hm _ S d ?_
    exact List.mem_filter.mpr ⟨hd, by rw [hmatch, contains_eq_false _ _ hk]; rfl⟩

theorem placements_cover_filtered (env : TDEnv) (meta : MapMeta)
    (hm : env.map_meta = some meta) (S : ExecSt) (l : List BuildingExport)
    (wave : Int) (late : Bool) (b : BuildingExport) (hb : b ∈ l)
    (hmatch : (b.wave_num == wave && b.is_late == late) = true) :
    b.uid ∈ (execute_specific_placements env S none
      (l.filter (fun v => v.wave_num == wave && v.is_late == late &&
        !(S.placed_uids.contains v.uid)))).1.placed_uids := by
  by_cases hk : b.uid ∈ S.placed_uids
  · exact placements_uid_mono env _ S none b.uid hk
  · refine placements_uid_mem env meta hm _ S none b ?_
    exact List.mem_filter.mpr ⟨hb, by rw [hmatch, contains_eq_false _ _ hk]; rfl⟩

theorem upgrades_cover_filtered (env : TDEnv) (S : ExecSt) (l : List UpgradeEvent)
    (u : UpgradeEvent) (hu : u ∈ l) :
    upgrade_key u ∈ (execute_specific_upgrades env S
      (l.filter (fun v => !(S.completed_upgrade_keys.contains (upgrade_key v))))).1.completed_upgrade_keys := by
  by_cases hk : upgrade_key u ∈ S.completed_upgrade_keys
  · exact upgrades_key_mono env _ S _ hk
  · refine upgrades_key_mem env _ S u ?_
    exact List.mem_filter.mpr ⟨hu, by rw [contains_eq_false _ _ hk]; rfl⟩

/-- After a wave phase runs with terrain loaded, every scheduled demolish
matching that `(wave, phase)` is in the completed-demolish ledger. -/
theorem wave_phase_demolish_coverage (env : TDEnv) (meta : MapMeta)
    (hm : env.map_meta = some meta) (st : ExecSt) (wave : Int) (is_late : Bool) :
    ∀ d ∈ env.strategy_demolishes,
      (d.wave_num == wave && d.is_late == is_late) = true →
      d.uid ∈ (execute_wave_phase env st wave is_late).1.completed_demolish_uids := by
  intro d hd hmatch
  unfold execute_wave_phase
  simp only [cond_demolishes, cond_placements, cond_upgrades]
  rw [upgrades_demuids_eq, placements_demuids_eq]
  exact demolishes_cover_filtered env meta hm st _ wave is_late d hd hmatch

/-- After a wave phase runs with terrain loaded, every scheduled building
matching that `(wave, phase)` is in the placed ledger. -/
theorem wave_phase_placement_coverage (env : TDEnv) (meta : MapMeta)
    (hm : env.map_meta = some meta) (st : ExecSt) (wave : Int) (is_late : Bool) :
    ∀ b ∈ env.strategy_buildings,
      (b.wave_num == wave && b.is_late == is_late) = true →
      b.uid ∈ (execute_wave_phase env st wave is_late).1.placed_uids := by
  intro b hb hmatch
  unfold execute_wave_phase
  simp only [cond_demolishes, cond_placements, cond_upgrades]
  rw [upgrades_placed_eq]
  exact placements_cover_filtered env meta hm _ _ wave is_late b hb hmatch

/-- After a wave phase runs, every scheduled upgrade matching that
`(wave, phase)` is in the completed-upgrade ledger (no terrain needed). -/
theorem wave_phase_upgrade_coverage (env : TDEnv) (st : ExecSt) (wave : Int)
    (is_late : Bool) :
    ∀ u ∈ env.strategy_upgrades,
      (u.wave_num == wave && u.is_late == is_late) = true →
      upgrade_key u ∈ (execute_wave_phase env st wave is_late).1.completed_upgrade_keys := by
  intro u hu hmatch
  unfold execute_wave_phase
  simp only [cond_demolishes, cond_placements, cond_upgrades]
  exact upgrades_cover_filtered env _ _ u (List.mem_filter.mpr ⟨hu, hmatch⟩)

/-- When every selection filter comes up empty, a wave phase is a no-op. -/
theorem execute_wave_phase_no_tasks (env : TDEnv) (st : ExecSt) (wave : Int)
    (is_late : Bool)
    (hd : env.strategy_demolishes.filter (fun d => d.wave_num == wave &&
      d.is_late == is_late && !(st.completed_demolish_uids.contains d.uid)) = [])
    (hp : env.strategy_buildings.filter (fun b => b.wave_num == wave &&
      b.is_late == is_late && !(st.placed_uids.contains b.uid)) = [])
    (hu : (env.strategy_upgrades.filter (fun u => u.wave_num == wave &&
      u.is_late == is_late)).filter
      (fun u => !(st.completed_upgrade_keys.contains (upgrade_key u))) = []) :
    execute_wave_phase env st wave is_late = (st, []) := by
  unfold execute_wave_phase
  rw [hd]
  simp only [List.isEmpty_nil, cond_true]
  rw [hp]
  simp only [List.isEmpty_nil, cond_true]
  rw [hu]
  simp only [List.isEmpty_nil, cond_true]
  rfl

/-- Without terrain, a wave phase can still run upgrades, but when the
upgrade filter is empty it issues no actions at all. -/
theorem execute_wave_phase_acts_no_meta (env : TDEnv) (st : ExecSt) (wave : Int)
    (is_late : Bool) (hm : env.map_meta = none)
    (hu : (env.strategy_upgrades.filter (fun u => u.wave_num == wave &&
      u.is_late == is_late)).filter
      (fun u => !(st.completed_upgrade_keys.contains (upgrade_key u))) = []) :
    (execute_wave_phase env st wave is_late).2 = [] := by
  unfold execute_wave_phase
  simp only [cond_demolishes, cond_placements, cond_upgrades]
  rw [demolishes_no_meta env hm]
  dsimp only
  rw [placements_no_meta env hm]
  dsimp only
  rw [hu]
  rfl

/-- C5: re-invoking `execute_wave_phase` for the same `(wave, phase)` with
the completed-ledger state left by the first invocation issues zero
additional device actions the second time. -/
theorem execute_wave_phase_idempotent (env : TDEnv) (st : ExecSt) (wave : Int)
    (is_late : Bool) :
    (execute_wave_phase env (execute_wave_phase env st wave is_late).1 wave is_late).2 = [] := by
  cases hmeta : env.map_meta with
  | some meta =>
    have hd : env.strategy_demolishes.filter (fun d => d.wave_num == wave &&
        d.is_late == is_late &&
        !((execute_wave_phase env st wave is_late).1.completed_demolish_uids.contains d.uid)) = [] := by
      refine List.filter_eq_nil_iff.mpr ?_
      intro d hdmem
      by_cases hmat : (d.wave_num == wave && d.is_late == is_late) = true
      · rw [hmat, contains_eq_true _ _
          (wave_phase_demolish_coverage env meta hmeta st wave is_late d hdmem hmat)]
        simp
      · have hf : (d.wave_num == wave && d.is_late == is_late) = false :=
          Bool.eq_false_iff.mpr hmat
        rw [hf]
        simp
    have hp : env.strategy_buildings.filter (fun b => b.wave_num == wave &&
        b.is_late == is_late &&
        !((execute_wave_phase env st wave is_late).1.placed_uids.contains b.uid)) = [] := by
      refine List.filter_eq_nil_iff.mpr ?_
      intro b hbmem
      by_cases hmat : (b.wave_num == wave && b.is_late == is_late) = true
      · rw [hmat, contains_eq_true _ _
          (wave_phase_placement_coverage env meta hmeta st wave is_late b hbmem hmat)]
        simp
      · have hf : (b.wave_num == wave && b.is_late == is_late) = false :=
          Bool.eq_false_iff.mpr hmat
        rw [hf]
        simp
    have hu : (env.strategy_upgrades.filter (fun u => u.wave_num == wave &&
        u.is_late == is_late)).filter
        (fun u => !((execute_wave_phase env st wave is_late).1.completed_upgrade_keys.contains
          (upgrade_key u))) = [] := by
      refine List.filter_eq_nil_iff.mpr ?_
      intro u humem
      have h2 := List.mem_filter.mp humem
      rw [contains_eq_true _ _
        (wave_phase_upgrade_coverage env st wave is_late u h2.1 h2.2)]
      simp
    rw [execute_wave_phase_no_tasks env _ wave is_late hd hp hu]
  | none =>
    refine execute_wave_phase_acts_no_meta env _ wave is_late hmeta ?_
    refine List.filter_eq_nil_iff.mpr ?_
    intro u humem
    have h2 := List.mem_filter.mp humem
    rw [contains_eq_true _ _
      (wave_phase_upgrade_coverage env st wave is_late u h2.1 h2.2)]
    simp

theorem f32_as_u16_clamp_bounds (x : ℚ) (lo hi : Int) (h : lo ≤ hi)
    (hlo : lo ≤ 65535) (hhi : 0 ≤ hi) :
    lo ≤ f32_as_u16 (clampQ x (lo : ℚ) (hi : ℚ)) ∧
      f32_as_u16 (clampQ x (lo : ℚ) (hi : ℚ)) ≤ hi := by
  have hql : (lo : ℚ) ≤ (hi : ℚ) := by exact_mod_cast h
  have hb := clampQ_mem x (lo : ℚ) (hi : ℚ) hql
  have hfl : lo ≤ ⌊clampQ x (lo : ℚ) (hi : ℚ)⌋ := Int.le_floor.mpr hb.1
  have hfu : ⌊clampQ x (lo : ℚ) (hi : ℚ)⌋ ≤ hi := by
    have h2 := Int.floor_le_floor hb.2
    rwa [Int.floor_intCast] at h2
  unfold f32_as_u16
  constructor
  · exact le_min hlo (le_max_of_le_right hfl)
  · exact le_trans (min_le_right _ _) (max_le hhi hfu)

theorem moves_append (cfg : TDConfig) (l1 l2 : List Action) :
    moves_in_safe_zone cfg (l1 ++ l2) =
      (moves_in_safe_zone cfg l1 && moves_in_safe_zone cfg l2) := by
  unfold moves_in_safe_zone
  exact List.all_append

theorem ensure_step_act_keyhold (cfg : TDConfig) (move_speed ty : ℚ) (isb : Bool)
    (maxOff offy t : ℚ) (a : Action)
    (hs : ensure_step cfg move_speed ty isb maxOff offy = some (t, a)) :
    ∃ c n, a = Action.keyHold c n := by
  cases isb with
  | true =>
    simp only [ensure_step, cond_true] at hs
    split at hs
    · exact absurd hs (by simp)
    · split at hs
      · exact absurd hs (by simp)
      · simp only [Option.some.injEq, Prod.mk.injEq] at hs
        exact ⟨_, _, hs.2.symm⟩
  | false =>
    simp only [ensure_step, cond_false] at hs
    split at hs
    · exact absurd hs (by simp)
    · split at hs
      · exact absurd hs (by simp)
      · simp only [Option.some.injEq, Prod.mk.injEq] at hs
        exact ⟨_, _, hs.2.symm⟩

theorem ensure_loop_moves (cfg : TDConfig) (move_speed ty : ℚ) (isb : Bool)
    (maxOff : ℚ) (fuel : Nat) : ∀ offy : ℚ,
    moves_in_safe_zone cfg (ensure_loop cfg move_speed ty isb maxOff fuel offy).2 = true := by
  induction fuel with
  | zero => intro offy; rfl
  | succ n ih =>
    intro offy
    rw [ensure_loop_succ]
    cases hstep : ensure_step cfg move_speed ty isb maxOff offy with
    | none => rfl
    | some ta =>
      obtain ⟨t, a⟩ := ta
      obtain ⟨c, m, ha⟩ := ensure_step_act_keyhold cfg move_speed ty isb maxOff offy t a hstep
      subst ha
      cases isb with
      | true => rfl
      | false =>
        simp only [cond_false]
        show moves_in_safe_zone cfg
          (Action.keyHold c m :: (ensure_loop cfg move_speed ty false maxOff n t).2) = true
        unfold moves_in_safe_zone at ih ⊢
        rw [List.all_cons]
        simp only [ih t]
        rfl

theorem ensure_moves (env : TDEnv) (st : ExecSt) (tx ty : ℚ) :
    moves_in_safe_zone env.config (ensure_target_in_safe_zone env st tx ty).2 = true := by
  cases hm : env.map_meta with
  | none => simp [ensure_target_in_safe_zone, hm, moves_in_safe_zone]
  | some meta =>
    unfold ensure_target_in_safe_zone
    rw [hm]
    dsimp only
    exact ensure_loop_moves env.config env.move_speed ty _ _ 2 st.camera_offset_y

theorem upgrades_moves (env : TDEnv) (tasks : List UpgradeEvent) : ∀ st : ExecSt,
    moves_in_safe_zone env.config (execute_specific_upgrades env st tasks).2 = true := by
  induction tasks with
  | nil => intro st; rfl
  | cons u rest ih =>
    intro st
    rw [execute_specific_upgrades]
    show moves_in_safe_zone env.config
      (Action.keyHold (get_trap_key env u.building_name) 800 ::
        (execute_specific_upgrades env _ rest).2) = true
    unfold moves_in_safe_zone at ih ⊢
    rw [List.all_cons]
    simp only [ih _]
    rfl

theorem demolishes_moves (env : TDEnv)
    (hx : env.config.safe_zone_x1 ≤ env.config.safe_zone_x2)
    (hx1 : env.config.safe_zone_x1 ≤ 65535) (hx2 : 0 ≤ env.config.safe_zone_x2)
    (hy : env.config.safe_zone_y1 ≤ env.config.safe_zone_y2)
    (hy1 : env.config.safe_zone_y1 ≤ 65535) (hy2 : 0 ≤ env.config.safe_zone_y2)
    (tasks : List DemolishEvent) : ∀ st : ExecSt,
    moves_in_safe_zone env.config (execute_specific_demolishes env st tasks).2 = true := by
  induction tasks with
  | nil => intro st; rfl
  | cons d rest ih =>
    intro st
    rw [execute_specific_demolishes]
    cases hpx : get_absolute_map_pixel env d.grid_x d.grid_y d.width d.height with
    | none => exact ih st
    | some pxy =>
      obtain ⟨px, py⟩ := pxy
      dsimp only
      rw [moves_append, moves_append]
      simp only [Bool.and_eq_true]
      refine ⟨⟨ensure_moves env st px py, ?_⟩, ih _⟩
      have hmx := f32_as_u16_clamp_bounds
        (px - (ensure_target_in_safe_zone env st px py).1.camera_offset_x)
        env.config.safe_zone_x1 env.config.safe_zone_x2 hx hx1 hx2
      have hmy := f32_as_u16_clamp_bounds
        (py - (ensure_target_in_safe_zone env st px py).1.camera_offset_y)
        env.config.safe_zone_y1 env.config.safe_zone_y2 hy hy1 hy2
      unfold moves_in_safe_zone
      simp only [List.all_cons, List.all_nil]
      simp only [decide_eq_true hmx.1, decide_eq_true hmx.2,
        decide_eq_true hmy.1, decide_eq_true hmy.2]
      rfl

theorem placements_moves (env : TDEnv)
    (hx : env.config.safe_zone_x1 ≤ env.config.safe_zone_x2)
    (hx1 : env.config.safe_zone_x1 ≤ 65535) (hx2 : 0 ≤ env.config.safe_zone_x2)
    (hy : env.config.safe_zone_y1 ≤ env.config.safe_zone_y2)
    (hy1 : env.config.safe_zone_y1 ≤ 65535) (hy2 : 0 ≤ env.config.safe_zone_y2)
    (tasks : List BuildingExport) : ∀ (st : ExecSt) (lk : Option Char),
    moves_in_safe_zone env.config (execute_specific_placements env st lk tasks).2 = true := by
  induction tasks with
  | nil => intro st lk; rfl
  | cons b rest ih =>
    intro st lk
    rw [execute_specific_placements]
    cases hpx : get_absolute_map_pixel env b.grid_x b.grid_y b.width b.height with
    | none => exact ih st lk
    | some pxy =>
      obtain ⟨px, py⟩ := pxy
      dsimp only
      rw [moves_append, moves_append]
      simp only [Bool.and_eq_true]
      refine ⟨⟨ensure_moves env st px py, ?_⟩, ih _ _⟩
      have hmx := f32_as_u16_clamp_bounds
        (px - (ensure_target_in_safe_zone env st px py).1.camera_offset_x)
        env.config.safe_zone_x1 env.config.safe_zone_x2 hx hx1 hx2
      have hmy := f32_as_u16_clamp_bounds
        (py - (ensure_target_in_safe_zone env st px py).1.camera_offset_y)
        env.config.safe_zone_y1 env.config.safe_zone_y2 hy hy1 hy2
      rw [moves_append, moves_append]
      simp only [Bool.and_eq_true]
      refine ⟨⟨?_, ?_⟩, ?_⟩
      · unfold moves_in_safe_zone
        simp only [List.all_cons, List.all_nil]
        simp only [decide_eq_true hmx.1, decide_eq_true hmx.2,
          decide_eq_true hmy.1, decide_eq_true hmy.2]
        rfl
      · cases some (get_trap_key env b.name) == lk with
        | true => rfl
        | false => rfl
      · rfl

/-- C6: every pointer move issued while executing a wave phase with terrain
loaded is first clamped into the safe interaction rectangle, so the cursor
target always lies within the configured safe zone. -/
theorem wave_phase_moves_safe (env : TDEnv) (st : ExecSt) (wave : Int) (is_late : Bool)
    (meta : MapMeta) (hm : env.map_meta = some meta)
    (hx : env.config.safe_zone_x1 ≤ env.config.safe_zone_x2)
    (hx1 : env.config.safe_zone_x1 ≤ 65535) (hx2 : 0 ≤ env.config.safe_zone_x2)
    (hy : env.config.safe_zone_y1 ≤ env.config.safe_zone_y2)
    (hy1 : env.config.safe_zone_y1 ≤ 65535) (hy2 : 0 ≤ env.config.safe_zone_y2) :
    moves_in_safe_zone env.config (execute_wave_phase env st wave is_late).2 = true := by
  unfold execute_wave_phase
  simp only [cond_demolishes, cond_placements, cond_upgrades]
  rw [moves_append, moves_append]
  simp only [Bool.and_eq_true]
  exact ⟨⟨demolishes_moves env hx hx1 hx2 hy hy1 hy2 _ st,
    placements_moves env hx hx1 hx2 hy hy1 hy2 _ _ none⟩, upgrades_moves env _ _⟩

/-- Witness for C6: a phase-1 run on the example terrain with one scheduled
building issues only safe-zone moves under the default config. -/
theorem wave_phase_moves_safe_witness :
    example_env2.map_meta = some example_meta ∧
      moves_in_safe_zone example_env2.config
        (execute_wave_phase example_env2 example_st 1 false).2 = true :=
  ⟨rfl, wave_phase_moves_safe example_env2 example_st 1 false example_meta rfl
    (by decide) (by decide) (by decide) (by decide) (by decide) (by decide)⟩

theorem wave_captures_none_iff (l : List Char) :
    wave_captures l = none ↔ hasWavePattern l = false := by
  induction l with
  | nil => simp [wave_captures, hasWavePattern]
  | cons c rest ih =>
    by_cases h : startsWithWavePattern (c :: rest) = true
    · simp [wave_captures, hasWavePattern, h]
    · have hf : startsWithWavePattern (c :: rest) = false := Bool.eq_false_iff.mpr h
      simp [wave_captures, hasWavePattern, hf, ih]

theorem wave_captures_ne_nil (l : List Char) : ∀ ds : List Char,
    wave_captures l = some ds → ds ≠ [] := by
  induction l with
  | nil => intro ds h; exact absurd h (by simp [wave_captures])
  | cons c rest ih =>
    intro ds h
    by_cases hs : startsWithWavePattern (c :: rest) = true
    · rw [wave_captures, if_pos hs] at h
      cases rest with
      | nil => exact absurd hs (by simp [startsWithWavePattern])
      | cons c2 rest2 =>
        cases rest2 with
        | nil => exact absurd hs (by simp [startsWithWavePattern])
        | cons d tail =>
          simp only [startsWithWavePattern, Bool.and_eq_true, beq_iff_eq] at hs
          simp only [List.drop_succ_cons, List.drop_zero, List.takeWhile_cons, hs.2,
            if_true, Option.some.injEq] at h
          rw [← h]
          simp
    · rw [wave_captures, if_neg hs] at h
      exact ih ds h

/-- C9 (amended): the sampler returns `None` when the text is empty or the
wave-marker-plus-digits pattern is absent; when the pattern is present it
returns `Some` of the extracted integer provided the digit run fits in
`i32`, and `None` (still "no signal", not an error) when it overflows. -/
theorem recognize_wave_status_characterization :
    recognize_wave_status [] = none
    ∧ (∀ text : List Char, hasWavePattern text = false →
        recognize_wave_status text = none)
    ∧ (∀ text : List Char, hasWavePattern text = true →
        ∃ ds, wave_captures text = some ds ∧ ds ≠ [] ∧
          recognize_wave_status text =
            (if digitsToNat ds ≤ 2147483647 then some ⟨(digitsToNat ds : Int)⟩
              else none)) := by
  refine ⟨rfl, ?_, ?_⟩
  · intro text h
    cases text with
    | nil => rfl
    | cons c rest =>
      have hnone : wave_captures (c :: rest) = none := (wave_captures_none_iff _).mpr h
      simp [recognize_wave_status, hnone]
  · intro text h
    have hne : wave_captures text ≠ none := by
      intro hc
      rw [(wave_captures_none_iff _).mp hc] at h
      exact Bool.false_ne_true h
    obtain ⟨ds, hds⟩ := Option.ne_none_iff_exists'.mp hne
    refine ⟨ds, hds, wave_captures_ne_nil _ ds hds, ?_⟩
    cases text with
    | nil => exact absurd h (by simp [hasWavePattern])
    | cons c rest =>
      have hdne : ds.isEmpty = false := by
        cases hd : ds with
        | nil => exact absurd hd (wave_captures_ne_nil _ ds hds)
        | cons x xs => rfl
      simp only [recognize_wave_status, List.isEmpty_cons, if_false, hds,
        parse_i32_digits, hdne, Bool.false_eq_true]
      by_cases hv : digitsToNat ds ≤ 2147483647
      · rw [if_pos hv, if_pos hv]
      · rw [if_neg hv, if_neg hv]

/-- Witness for C9 (amended): text `波次12abc` contains the pattern and
yields wave 12. -/
theorem recognize_wave_status_witness :
    hasWavePattern ("波次12abc".toList) = true ∧
      recognize_wave_status ("波次12abc".toList) = some ⟨12⟩ := by
  refine ⟨by decide, ?_⟩
  obtain ⟨ds, hds, hne, heq⟩ :=
    recognize_wave_status_characterization.2.2 ("波次12abc".toList) (by decide)
  have h12 : wave_captures ("波次12abc".toList) = some ['1', '2'] := by decide
  rw [h12] at hds
  have hds2 : ds = ['1', '2'] := ((Option.some.injEq _ _).mp hds).symm
  subst hds2
  rw [heq]
  decide

/-- C9 counterexample: `波次3000000000` contains the wave-marker-plus-digits
pattern, yet the sampler returns `None`, because 3000000000 does not fit in
`i32` and `parse::<i32>` fails. -/
theorem recognize_wave_status_counterexample :
    hasWavePattern ("波次3000000000".toList) = true ∧
      recognize_wave_status ("波次3000000000".toList) = none := by
  decide

/-- C1: `validate_transition` accepts a detected wave iff it equals the last
confirmed wave plus one and either the minimum interval has elapsed since the
last confirmed transition or the last confirmed wave is 0; consequently the
raw detection sequence [1,1,1,2,2,3] with `min_interval = 0` yields confirmed
transitions exactly [1,2,3], and feeding 5 immediately after confirming 1 is
rejected. -/
theorem validate_transition_characterization :
    (∀ (minInterval : Nat) (s : WaveState) (now : Nat) (d : Int),
      (validate_wave_transition minInterval s now d).1 = true ↔
        (d = s.last_confirmed_wave + 1 ∧
          (minInterval ≤ now - s.last_wave_change_time ∨ s.last_confirmed_wave = 0)))
    ∧ run_detections 0 ⟨0, 0⟩ [(1, 0), (1, 0), (1, 0), (2, 0), (2, 0), (3, 0)] = [1, 2, 3]
    ∧ (validate_wave_transition 0 (validate_wave_transition 0 ⟨0, 0⟩ 0 1).2 0 5).1 = false := by
  refine ⟨?_, by decide, by decide⟩
  intro minInterval s now d
  simp only [validate_wave_transition]
  constructor
  · intro h
    split at h
    · rename_i hc
      simp only [Bool.and_eq_true, Bool.or_eq_true, beq_iff_eq, decide_eq_true_eq] at hc
      exact ⟨hc.1, hc.2⟩
    · exact absurd h (by simp)
  · intro ⟨h1, h2⟩
    have : (decide (minInterval ≤ now - s.last_wave_change_time)
        || (s.last_confirmed_wave == 0)) = true := by
      rcases h2 with h2 | h2
      · simp [h2]
      · simp [h2]
    simp [h1, this]

/-- C7: the stored last-confirmed wave number never decreases across a call
to `validate_wave_transition`. -/
theorem last_confirmed_wave_monotone (minInterval : Nat) (s : WaveState) (now : Nat)
    (d : Int) :
    s.last_confirmed_wave ≤
      (validate_wave_transition minInterval s now d).2.last_confirmed_wave := by
  simp only [validate_wave_transition]
  split
  · rename_i hc
    simp only [Bool.and_eq_true, beq_iff_eq] at hc
    simp only [hc.1]
    omega
  · exact le_refl _

/-- Witness for C7 at a concrete input. -/
theorem last_confirmed_wave_monotone_witness :
    (⟨1, 0⟩ : WaveState).last_confirmed_wave ≤
      (validate_wave_transition 0 ⟨1, 0⟩ 0 5).2.last_confirmed_wave :=
  last_confirmed_wave_monotone 0 ⟨1, 0⟩ 0 5

/-- C10: when `validate_wave_transition` rejects a detection, the wave state
is returned entirely unchanged (both the last confirmed wave and the
timestamp keep their prior values). -/
theorem validate_reject_leaves_state (minInterval : Nat) (s : WaveState) (now : Nat)
    (d : Int) (h : (validate_wave_transition minInterval s now d).1 = false) :
    (validate_wave_transition minInterval s now d).2 = s := by
  simp only [validate_wave_transition] at h ⊢
  split at h
  · exact absurd h (by simp)
  · rename_i hc
    simp [hc]

/-- Witness for C10: rejecting 5 right after wave 1 leaves the state intact. -/
theorem validate_reject_leaves_state_witness :
    (validate_wave_transition 0 ⟨1, 0⟩ 0 5).1 = false ∧
      (validate_wave_transition 0 ⟨1, 0⟩ 0 5).2 = ⟨1, 0⟩ :=
  ⟨by decide, validate_reject_leaves_state 0 ⟨1, 0⟩ 0 5 (by decide)⟩

end NZM
